import Mathlib

/-!
Shallow embedding of the repl-rs command-interpretation engine
(`src/command.rs`, `src/command_def.rs`, `src/error.rs`, `src/help.rs`,
`src/repl.rs`) and proofs about its specification claims.

Rust `Result<T, Error>` becomes `Except Error T`; `HashMap<String, V>`
becomes an association list built by prepending (so `List.lookup`, which
returns the first hit, sees the most recent insertion exactly like
`HashMap::insert` overwrite semantics); callbacks (`fn` pointers) become
Lean functions; printing to stdout/stderr becomes an explicit event trace.
-/

namespace ReplRs

/-- Error type, from `src/error.rs` (`enum Error`).  The three parse-error
variants wrap foreign error types; their payload is modelled as the rendered
message string, which is all the engine ever uses. -/
inductive Error where
  | IllegalRequiredError (parameter : String)
  | IllegalDefaultError (parameter : String)
  | MissingRequiredArgument (command : String) (parameter : String)
  | TooManyArguments (command : String) (nargs : Nat)
  | ParseBoolError (msg : String)
  | ParseIntError (msg : String)
  | ParseFloatError (msg : String)
  | CommandError (msg : String)
  | UnknownCommand (command : String)
deriving Repr, DecidableEq

/-- Value struct: a wrapper around the raw textual argument. -/
structure Value where
  value : String
deriving Repr, DecidableEq

/-- Modelled from the spec: the file `value.rs` is referenced by `lib.rs` but
is not under `src/`; spec section 3 describes `Value` as an "immutable text
payload" constructed from the raw token, so `Value.new` stores the given
string unchanged (this matches every use site in `repl.rs`). -/
def Value.new (s : String) : Value := ⟨s⟩

/-- Parameter struct, from `src/command_def.rs` (`pub struct Parameter`). -/
structure Parameter where
  name : String
  required : Bool
  default : Option String
deriving Repr, DecidableEq

/-- `Parameter::new`, from `src/command_def.rs`. -/
def Parameter.new (name : String) : Parameter :=
  { name := name, required := false, default := none }

/-- `Parameter::set_required`, from `src/command_def.rs` lines 80-87. -/
def Parameter.set_required (p : Parameter) (required : Bool) : Except Error Parameter :=
  if p.default.isSome then
    .error (.IllegalRequiredError p.name)
  else
    .ok { p with required := required }

/-- `Parameter::set_default`, from `src/command_def.rs` lines 89-96. -/
def Parameter.set_default (p : Parameter) (default : String) : Except Error Parameter :=
  if p.required then
    .error (.IllegalDefaultError p.name)
  else
    .ok { p with default := some default }

/-- Command struct, from `src/command.rs` (`pub struct Command<Context, E>`);
the callback is `fn(HashMap<String, Value>, &mut Context) -> Result<Option<String>, E>`,
modelled as a function that also returns the (possibly mutated) context. -/
structure Command (Ctx E : Type) where
  name : String
  parameters : List Parameter
  callback : List (String × Value) → Ctx → Except E (Option String) × Ctx
  help_summary : Option String

/-- `Command::new`, from `src/command.rs`. -/
def Command.new (name : String)
    (callback : List (String × Value) → Ctx → Except E (Option String) × Ctx) :
    Command Ctx E :=
  { name := name, parameters := [], callback := callback, help_summary := none }

/-- `Command::with_parameter`, from `src/command.rs` lines 45-53 (the
logically identical older copy is `src/command_def.rs` lines 40-55): a
required parameter is rejected when some already-appended parameter is not
required, otherwise the parameter is pushed at the end. -/
def Command.with_parameter (cmd : Command Ctx E) (parameter : Parameter) :
    Except Error (Command Ctx E) :=
  if parameter.required && cmd.parameters.any (fun param => !param.required) then
    .error (.IllegalRequiredError parameter.name)
  else
    .ok { cmd with parameters := cmd.parameters ++ [parameter] }

/-- `Command::with_help`, from `src/command.rs`. -/
def Command.with_help (cmd : Command Ctx E) (help : String) : Command Ctx E :=
  { cmd with help_summary := some help }

/-- The `for (index, parameter) in parameters.iter().enumerate()` loop body of
`Repl::validate_arguments`, `src/repl.rs` lines 150-165: while argument tokens
remain the parameter binds the token; once they run out a required parameter
aborts with `MissingRequiredArgument` and a defaulted parameter binds its
default. -/
def bindLoop (command : String) (validated : List (String × Value)) :
    List Parameter → List String → Except Error (List (String × Value))
  | [], _ => .ok validated
  | parameter :: ps, [] =>
    if parameter.required then
      .error (.MissingRequiredArgument command parameter.name)
    else
      match parameter.default with
      | some d => bindLoop command ((parameter.name, Value.new d) :: validated) ps []
      | none => bindLoop command validated ps []
  | parameter :: ps, arg :: args =>
    bindLoop command ((parameter.name, Value.new arg) :: validated) ps args

/-- `Repl::validate_arguments`, from `src/repl.rs` lines 140-167. -/
def validate_arguments (command : String) (parameters : List Parameter)
    (args : List String) : Except Error (List (String × Value)) :=
  if args.length > parameters.length then
    .error (.TooManyArguments command parameters.length)
  else
    bindLoop command [] parameters args

/-- Spec-side helper: the name of the parameter on which the loop of
`validate_arguments` aborts, i.e. the first parameter left without an argument
token that is required. -/
def firstMissing : List Parameter → List String → Option String
  | [], _ => none
  | parameter :: ps, [] =>
    if parameter.required then some parameter.name else firstMissing ps []
  | _ :: ps, _ :: args => firstMissing ps args

/-- Spec-side helper: the entries inserted by the loop of
`validate_arguments`, in insertion order, assuming it does not abort. -/
def collected : List Parameter → List String → List (String × Value)
  | [], _ => []
  | parameter :: ps, [] =>
    match parameter.default with
    | some d => (parameter.name, Value.new d) :: collected ps []
    | none => collected ps []
  | parameter :: ps, arg :: args => (parameter.name, Value.new arg) :: collected ps args

-- ===== tokenizer =====

/-- The character class `\S` of the token regex in `Repl::process_line`
(`src/repl.rs` line 216): any non-whitespace character. -/
def notWS (c : Char) : Bool := !c.isWhitespace

/-- The first alternative `"[^"\n]+"` of the token regex, tried at a position
whose character is `"` with `cs` the remaining input: it matches when a
non-empty run of characters other than `"` and newline is followed by a
closing `"`, returning the run and the input after the closing quote. -/
def quotedTail (cs : List Char) : Option (List Char × List Char) :=
  let run := cs.takeWhile (fun c => c ≠ '"' && c ≠ '\n')
  let rest := cs.dropWhile (fun c => c ≠ '"' && c ≠ '\n')
  if run.isEmpty then none
  else if rest.head? = some '"' then some (run, rest.tail)
  else none

/-- Fuel-indexed matcher loop of `captures_iter` for the regex
`("[^"\n]+"|[\S]+)` (`src/repl.rs` lines 216-218): skip to the next
non-whitespace character (the leftmost position where either alternative can
match), prefer the quoted alternative when it matches there, otherwise take
the maximal `[\S]+` run.  The fuel argument only forces termination; it is
never exhausted when it starts at the input length. -/
def tokF : Nat → List Char → List (List Char)
  | _, [] => []
  | 0, _ :: _ => []
  | fuel + 1, c :: cs =>
    if c.isWhitespace then tokF fuel cs
    else if c = '"' then
      match quotedTail cs with
      | some (run, rest) => ('"' :: run ++ ['"']) :: tokF fuel rest
      | none => (c :: cs.takeWhile notWS) :: tokF fuel (cs.dropWhile notWS)
    else (c :: cs.takeWhile notWS) :: tokF fuel (cs.dropWhile notWS)

/-- All regex matches of `("[^"\n]+"|[\S]+)` on the input, in order. -/
def tokenizeChars (cs : List Char) : List (List Char) := tokF cs.length cs

/-- The token list of `Repl::process_line` (`src/repl.rs` lines 216-220): every
regex match with each `"` character deleted (`.replace('\"', "")`). -/
def tokenize (cs : List Char) : List String :=
  (tokenizeChars cs).map (fun t => String.mk (t.filter (fun c => c ≠ '"')))

/-- Rust `str::trim` (`line.trim()` in `src/repl.rs` line 214): remove leading
and trailing whitespace characters. -/
def trimChars (cs : List Char) : List Char :=
  ((cs.dropWhile Char.isWhitespace).reverse.dropWhile Char.isWhitespace).reverse

-- ===== help and dispatch =====

/-- `HelpEntry` struct, from `src/help.rs`: the command name, the parameter
names with their required flags, and the optional summary. -/
structure HelpEntry where
  command : String
  parameters : List (String × Bool)
  summary : Option String
deriving Repr, DecidableEq

/-- `HelpContext` struct, from `src/help.rs`, restricted to the field the
dispatcher reads (`help_entries`); the app name/version/purpose header fields
only feed the viewer's rendering. -/
structure HelpContext where
  help_entries : List HelpEntry
deriving Repr, DecidableEq

/-- The `HelpViewer` trait object held by the `Repl` (`src/repl.rs` calls
`help_general` and `help_command` on it): two fallible operations whose
printing is internal to the viewer. -/
structure HelpViewerM where
  help_general : HelpContext → Except Error Unit
  help_command : HelpEntry → Except Error Unit

/-- Observable output of one dispatch: `println!` to stdout, `eprintln!` to the
error sink, and the two viewer rendering calls of `Repl::show_help`. -/
inductive Event where
  | out (s : String)
  | errOut (s : String)
  | helpGeneral
  | helpCommand (command : String)
deriving Repr, DecidableEq

/-- The command table `commands: HashMap<String, Command>` of the `Repl`
struct: most recent insertion first, looked up with `List.lookup` (which
returns the first hit, i.e. the overwriting insertion). -/
abbrev CmdTable (Ctx E : Type) := List (String × Command Ctx E)

/-- `Repl::add_command`, from `src/repl.rs` lines 134-138:
`self.commands.insert(command.name.clone(), command)`. -/
def add_command (commands : CmdTable Ctx E) (command : Command Ctx E) :
    CmdTable Ctx E :=
  (command.name, command) :: commands

/-- `Repl::show_help`, from `src/repl.rs` lines 191-211, in the state after
`construct_help_context` has filled `help_context` (the `.unwrap()` there):
no arguments renders general help; otherwise the entry whose command equals
`args[0]` is rendered, and a miss prints a notice to the error sink and
returns `Ok(())`. -/
def show_help (hv : HelpViewerM) (hc : HelpContext) (args : List String) :
    Except Error Unit × List Event :=
  match args with
  | [] => (hv.help_general hc, [.helpGeneral])
  | a :: _ =>
    match hc.help_entries.find? (fun entry => entry.command == a) with
    | some entry => (hv.help_command entry, [.helpCommand entry.command])
    | none => (.ok (), [.errOut ("Help not found for command '" ++ a ++ "'")])

/-- The `Some(definition)` arm of `Repl::handle_command` (`src/repl.rs` lines
171-178): validate the arguments, run the callback, print `Ok(Some(value))`
output, propagate callback errors. -/
def exec_command (fe : Error → E) (definition : Command Ctx E) (ctx : Ctx)
    (command : String) (args : List String) : Except E Unit × Ctx × List Event :=
  match validate_arguments command definition.parameters args with
  | .error e => (.error (fe e), ctx, [])
  | .ok validated =>
    match definition.callback validated ctx with
    | (.ok (some value), ctx') => (.ok (), ctx', [.out value])
    | (.ok none, ctx') => (.ok (), ctx', [])
    | (.error err, ctx') => (.error err, ctx', [])

/-- The `command == "help"` arm of `Repl::handle_command` (`src/repl.rs` lines
180-182): `self.show_help(args)?`, with the `?` converting the engine error
through `From`. -/
def exec_help (fe : Error → E) (hv : HelpViewerM) (hc : HelpContext) (ctx : Ctx)
    (args : List String) : Except E Unit × Ctx × List Event :=
  match show_help hv hc args with
  | (.ok _, events) => (.ok (), ctx, events)
  | (.error e, events) => (.error (fe e), ctx, events)

/-- `Repl::handle_command`, from `src/repl.rs` lines 169-189: the user command
table is consulted first; only when the lookup misses does the literal
`"help"` reach the help renderer, and any other miss is `UnknownCommand`.
`fe` is the `From<Error>` conversion into the application error type `E`. -/
def handle_command (fe : Error → E) (hv : HelpViewerM) (hc : HelpContext)
    (commands : CmdTable Ctx E) (ctx : Ctx) (command : String)
    (args : List String) : Except E Unit × Ctx × List Event :=
  match List.lookup command commands with
  | some definition => exec_command fe definition ctx command args
  | none =>
    if command = "help" then exec_help fe hv hc ctx args
    else (.error (fe (.UnknownCommand command)), ctx, [])

/-- `Repl::process_line`, from `src/repl.rs` lines 213-229: trim the line; an
empty remainder does nothing; otherwise tokenize, split off the first token as
the command name and dispatch.  (A non-empty trimmed line always yields at
least one token, so the `[]` token branch is unreachable and mirrors the
otherwise-panicking `drain` on an empty vector by doing nothing.) -/
def process_line (fe : Error → E) (hv : HelpViewerM) (hc : HelpContext)
    (commands : CmdTable Ctx E) (ctx : Ctx) (line : String) :
    Except E Unit × Ctx × List Event :=
  let trimmed := trimChars line.data
  if trimmed.isEmpty then (.ok (), ctx, [])
  else
    match tokenize trimmed with
    | [] => (.ok (), ctx, [])
    | command :: args => handle_command fe hv hc commands ctx command args

-- ===== spec-side helpers for the reachability and tokenizer claims =====

/-- Parameter values reachable through the public builder API: `Parameter::new`
followed by any sequence of successful `set_required`/`set_default` calls. -/
inductive ReachableParameter : Parameter → Prop where
  | new (name : String) : ReachableParameter (Parameter.new name)
  | set_required (p q : Parameter) (b : Bool) : ReachableParameter p →
      p.set_required b = .ok q → ReachableParameter q
  | set_default (p q : Parameter) (d : String) : ReachableParameter p →
      p.set_default d = .ok q → ReachableParameter q

/-- Spec-side well-formedness of one whitespace-separated unit of an input
line, following the spec's tokenizer description: a plain unit is a non-empty
run of non-whitespace characters containing no double quote; a quoted unit
(flag `true`) is written between double quotes and its content is non-empty
and free of double quotes and newlines. -/
def unitWF : Bool × List Char → Bool
  | (false, u) => !u.isEmpty && u.all (fun c => !c.isWhitespace && c ≠ '"')
  | (true, u) => !u.isEmpty && u.all (fun c => c ≠ '"' && c ≠ '\n')

/-- Spec-side rendering of one unit: a quoted unit is surrounded by double
quotes. -/
def renderUnit : Bool × List Char → List Char
  | (false, u) => u
  | (true, u) => '"' :: u ++ ['"']

/-- Spec-side rendering of an input line: the units separated by single
spaces. -/
def renderLine : List (Bool × List Char) → List Char
  | [] => []
  | [u] => renderUnit u
  | u :: us => renderUnit u ++ ' ' :: renderLine us

-- ===== concrete instances used by individual claims =====

/-- A user command registered under the name `"help"`, with an observable
callback: it increments the numeric context and returns printable output. -/
def c1UserHelp : Command Nat Error :=
  { name := "help", parameters := [],
    callback := fun _ ctx => (.ok (some "USER CALLBACK"), ctx + 1),
    help_summary := some "user-registered help command" }

/-- A help viewer both of whose rendering operations fail, which makes any
invocation of the viewer observable in the dispatch result. -/
def c1FailViewer : HelpViewerM :=
  { help_general := fun _ => .error (.CommandError "viewer invoked"),
    help_command := fun _ => .error (.CommandError "viewer invoked") }

/-- A command whose parameter list already contains a non-required
parameter (the `test_no_required_after_optional` shape: `baz` optional with
default `"20"`). -/
def c2OptionalFirst : Command Nat Error :=
  { name := "foo",
    parameters := [{ name := "baz", required := false, default := some "20" }],
    callback := fun _ ctx => (.ok none, ctx),
    help_summary := none }

/-- A command named `foo` with an observable callback, used to show that a
quoted command name resolves to the unquoted command. -/
def c10FooCmd : Command Nat Error :=
  { name := "foo", parameters := [],
    callback := fun _ ctx => (.ok (some "FOO RAN"), ctx + 1),
    help_summary := none }

-- ===== theorems =====

theorem bindLoop_spec (command : String) :
    ∀ (ps : List Parameter) (args : List String) (acc : List (String × Value)),
      bindLoop command acc ps args =
        match firstMissing ps args with
        | some nm => .error (.MissingRequiredArgument command nm)
        | none => .ok ((collected ps args).reverse ++ acc) := by
  intro ps
  induction ps with
  | nil => intro args acc; simp [bindLoop, firstMissing, collected]
  | cons parameter ps ih =>
    intro args acc
    cases args with
    | nil =>
      by_cases hreq : parameter.required = true
      · simp [bindLoop, firstMissing, collected, hreq]
      · simp only [Bool.not_eq_true] at hreq
        cases hdef : parameter.default with
        | some d =>
          simp only [bindLoop, firstMissing, collected, hreq, hdef, if_false, ih]
          cases firstMissing ps [] <;> simp
        | none =>
          simp only [bindLoop, firstMissing, collected, hreq, hdef, if_false, ih]
          simp
    | cons arg args =>
      simp only [bindLoop, firstMissing, collected, ih]
      cases firstMissing ps args <;> simp

theorem firstMissing_eq_find (ps : List Parameter) (args : List String) :
    firstMissing ps args =
      ((ps.drop args.length).find? (fun p => p.required)).map (fun p => p.name) := by
  induction ps generalizing args with
  | nil => simp [firstMissing]
  | cons parameter ps ih =>
    cases args with
    | nil =>
      by_cases hreq : parameter.required = true
      · simp [firstMissing, hreq, List.find?]
      · simp only [Bool.not_eq_true] at hreq
        simpa [firstMissing, hreq, List.find?] using ih []
    | cons arg args => simpa [firstMissing] using ih args

theorem lookup_append {α β : Type} [BEq α] (l₁ l₂ : List (α × β)) (a : α) :
    List.lookup a (l₁ ++ l₂) =
      match List.lookup a l₁ with
      | some v => some v
      | none => List.lookup a l₂ := by
  induction l₁ with
  | nil => simp [List.lookup]
  | cons kv t ih =>
    obtain ⟨k, v⟩ := kv
    cases h : a == k <;> simp [List.lookup, h, ih]

theorem lookup_eq_none_of_not_mem {α β : Type} [BEq α] [LawfulBEq α]
    {l : List (α × β)} {a : α} (h : a ∉ l.map Prod.fst) : List.lookup a l = none := by
  induction l with
  | nil => simp [List.lookup]
  | cons kv t ih =>
    obtain ⟨k, v⟩ := kv
    simp only [List.map_cons, List.mem_cons, not_or] at h
    have hne : (a == k) = false := beq_eq_false_iff_ne.mpr h.1
    simp [List.lookup, hne, ih h.2]

theorem lookup_reverse_of_nodup {α β : Type} [BEq α] [LawfulBEq α]
    {l : List (α × β)} (h : (l.map Prod.fst).Nodup) (a : α) :
    List.lookup a l.reverse = List.lookup a l := by
  induction l with
  | nil => simp
  | cons kv t ih =>
    obtain ⟨k, v⟩ := kv
    simp only [List.map_cons, List.nodup_cons] at h
    rw [List.reverse_cons, lookup_append, ih h.2]
    by_cases hak : a = k
    · subst hak
      rw [lookup_eq_none_of_not_mem h.1]
      simp [List.lookup]
    · have hne : (a == k) = false := beq_eq_false_iff_ne.mpr hak
      cases hlt : List.lookup a t <;> simp [List.lookup, hne, hlt]

theorem collected_keys_sublist (ps : List Parameter) (args : List String) :
    ((collected ps args).map Prod.fst).Sublist (ps.map (fun p => p.name)) := by
  induction ps generalizing args with
  | nil => simp [collected]
  | cons parameter ps ih =>
    cases args with
    | nil =>
      cases hdef : parameter.default with
      | some d =>
        simp only [collected, hdef, List.map_cons]
        exact (ih []).cons₂ _
      | none =>
        simp only [collected, hdef, List.map_cons]
        exact (ih []).cons _
    | cons arg args =>
      simp only [collected, List.map_cons]
      exact (ih args).cons₂ _

theorem not_mem_collected_keys {ps : List Parameter} {args : List String}
    {a : String} (h : a ∉ ps.map (fun p => p.name)) :
    a ∉ (collected ps args).map Prod.fst :=
  fun hmem => h ((collected_keys_sublist ps args).mem hmem)

theorem collected_lookup (ps : List Parameter) (args : List String)
    (hnd : (ps.map (fun p => p.name)).Nodup) (i : Nat) (hi : i < ps.length) :
    List.lookup (ps.get ⟨i, hi⟩).name (collected ps args) =
      if h : i < args.length then some (Value.new (args.get ⟨i, h⟩))
      else (ps.get ⟨i, hi⟩).default.map Value.new := by
  induction ps generalizing args i with
  | nil => exact absurd hi (by simp)
  | cons parameter ps ih =>
    simp only [List.map_cons, List.nodup_cons] at hnd
    cases i with
    | zero =>
      cases args with
      | nil =>
        cases hdef : parameter.default with
        | some d => simp [collected, hdef, List.lookup]
        | none =>
          simp only [collected, hdef]
          have := lookup_eq_none_of_not_mem
            (l := collected ps []) (a := parameter.name)
            (not_mem_collected_keys hnd.1)
          simp [this, hdef]
      | cons arg args => simp [collected, List.lookup]
    | succ j =>
      have hj : j < ps.length := by simpa using hi
      have hkey : (ps.get ⟨j, hj⟩).name ∈ ps.map (fun p => p.name) :=
        List.mem_map.mpr ⟨ps.get ⟨j, hj⟩, List.get_mem ps j hj, rfl⟩
      have hne : ((ps.get ⟨j, hj⟩).name == parameter.name) = false :=
        beq_eq_false_iff_ne.mpr (fun hEq => hnd.1 (hEq ▸ hkey))
      simp only [List.get_eq_getElem] at hne
      cases args with
      | nil =>
        cases hdef : parameter.default with
        | some d =>
          simpa [collected, hdef, List.lookup, hne] using ih [] hnd.2 j hj
        | none =>
          simpa [collected, hdef, List.lookup, hne] using ih [] hnd.2 j hj
      | cons arg args =>
        simpa [collected, List.lookup, hne] using ih args hnd.2 j hj

theorem dropWhile_length_le {α : Type} (p : α → Bool) (l : List α) :
    (l.dropWhile p).length ≤ l.length := by
  induction l with
  | nil => simp
  | cons c cs ih =>
    by_cases h : p c = true
    · simp only [List.dropWhile_cons, h, if_true]
      exact le_trans ih (Nat.le_succ _)
    · simp [List.dropWhile_cons, h]

theorem quotedTail_length {cs run rest : List Char}
    (h : quotedTail cs = some (run, rest)) : rest.length < cs.length := by
  have hlen : (cs.dropWhile (fun c => c ≠ '"' && c ≠ '\n')).length ≤ cs.length :=
    dropWhile_length_le _ cs
  simp only [quotedTail] at h
  by_cases he : (cs.takeWhile (fun c => c ≠ '"' && c ≠ '\n')).isEmpty = true
  · rw [if_pos he] at h
    exact absurd h (by simp)
  · rw [if_neg he] at h
    by_cases hh : (cs.dropWhile (fun c => c ≠ '"' && c ≠ '\n')).head? = some '"'
    · rw [if_pos hh] at h
      have hrest : (cs.dropWhile (fun c => c ≠ '"' && c ≠ '\n')).tail = rest :=
        congrArg Prod.snd (Option.some.inj h)
      have hne : cs.dropWhile (fun c => c ≠ '"' && c ≠ '\n') ≠ [] := by
        intro hnil
        rw [hnil] at hh
        simp at hh
      have hpos : 0 < (cs.dropWhile (fun c => c ≠ '"' && c ≠ '\n')).length :=
        List.length_pos.mpr hne
      have htail := List.length_tail (cs.dropWhile (fun c => c ≠ '"' && c ≠ '\n'))
      rw [← hrest]
      omega
    · rw [if_neg hh] at h
      exact absurd h (by simp)

theorem tokF_congr (f : Nat) : ∀ (g : Nat) (cs : List Char),
    cs.length ≤ f → cs.length ≤ g → tokF f cs = tokF g cs := by
  induction f with
  | zero =>
    intro g cs hf _
    have hnil : cs = [] := List.length_eq_zero.mp (Nat.le_zero.mp hf)
    subst hnil
    cases g <;> rfl
  | succ f ih =>
    intro g cs hf hg
    cases cs with
    | nil => cases g <;> rfl
    | cons c cs =>
      simp only [List.length_cons] at hf hg
      cases g with
      | zero => omega
      | succ g =>
        simp only [tokF]
        by_cases hw : c.isWhitespace = true
        · rw [if_pos hw, if_pos hw]
          exact ih g cs (by omega) (by omega)
        · rw [if_neg hw, if_neg hw]
          by_cases hq : c = '"'
          · rw [if_pos hq, if_pos hq]
            cases hqt : quotedTail cs with
            | none =>
              simp only
              rw [ih g (cs.dropWhile notWS)
                (le_trans (dropWhile_length_le _ _) (by omega))
                (le_trans (dropWhile_length_le _ _) (by omega))]
            | some pr =>
              obtain ⟨run, rest⟩ := pr
              have hlt := quotedTail_length hqt
              simp only
              rw [ih g rest (by omega) (by omega)]
          · rw [if_neg hq, if_neg hq]
            rw [ih g (cs.dropWhile notWS)
              (le_trans (dropWhile_length_le _ _) (by omega))
              (le_trans (dropWhile_length_le _ _) (by omega))]

theorem tokenizeChars_cons (c : Char) (cs : List Char) :
    tokenizeChars (c :: cs) =
      if c.isWhitespace then tokenizeChars cs
      else if c = '"' then
        match quotedTail cs with
        | some (run, rest) => ('"' :: run ++ ['"']) :: tokenizeChars rest
        | none => (c :: cs.takeWhile notWS) :: tokenizeChars (cs.dropWhile notWS)
      else (c :: cs.takeWhile notWS) :: tokenizeChars (cs.dropWhile notWS) := by
  show tokF (cs.length + 1) (c :: cs) = _
  simp only [tokF]
  by_cases hw : c.isWhitespace = true
  · rw [if_pos hw, if_pos hw]
    rfl
  · rw [if_neg hw, if_neg hw]
    by_cases hq : c = '"'
    · rw [if_pos hq, if_pos hq]
      cases hqt : quotedTail cs with
      | none =>
        simp only
        rw [tokF_congr cs.length (cs.dropWhile notWS).length (cs.dropWhile notWS)
          (dropWhile_length_le _ _) le_rfl]
        rfl
      | some pr =>
        obtain ⟨run, rest⟩ := pr
        simp only
        rw [tokF_congr cs.length rest.length rest
          (Nat.le_of_lt (quotedTail_length hqt)) le_rfl]
        rfl
    · rw [if_neg hq, if_neg hq]
      rw [tokF_congr cs.length (cs.dropWhile notWS).length (cs.dropWhile notWS)
        (dropWhile_length_le _ _) le_rfl]
      rfl

theorem takeWhile_append_all {α : Type} {p : α → Bool} {l₁ : List α}
    (h : ∀ c ∈ l₁, p c = true) (l₂ : List α) :
    (l₁ ++ l₂).takeWhile p = l₁ ++ l₂.takeWhile p := by
  induction l₁ with
  | nil => simp
  | cons c cs ih =>
    have hc := h c (List.mem_cons_self c cs)
    simp only [List.cons_append, List.takeWhile_cons, hc, if_true]
    rw [ih (fun d hd => h d (List.mem_cons_of_mem c hd))]

theorem dropWhile_append_all {α : Type} {p : α → Bool} {l₁ : List α}
    (h : ∀ c ∈ l₁, p c = true) (l₂ : List α) :
    (l₁ ++ l₂).dropWhile p = l₂.dropWhile p := by
  induction l₁ with
  | nil => simp
  | cons c cs ih =>
    have hc := h c (List.mem_cons_self c cs)
    simp only [List.cons_append, List.dropWhile_cons, hc, if_true]
    exact ih (fun d hd => h d (List.mem_cons_of_mem c hd))

theorem tok_plain {u : List Char} (hu : u ≠ [])
    (hall : ∀ c ∈ u, ¬c.isWhitespace = true ∧ c ≠ '"')
    {t : List Char} (ht : t = [] ∨ ∃ r, t = ' ' :: r) :
    tokenizeChars (u ++ t) = u :: tokenizeChars t := by
  cases u with
  | nil => exact absurd rfl hu
  | cons c cs =>
    have hc := hall c (List.mem_cons_self c cs)
    have hcs : ∀ d ∈ cs, notWS d = true := by
      intro d hd
      have := (hall d (List.mem_cons_of_mem c hd)).1
      simp [notWS, this]
    have htake : (cs ++ t).takeWhile notWS = cs := by
      rw [takeWhile_append_all hcs]
      rcases ht with rfl | ⟨r, rfl⟩
      · simp
      · simp [List.takeWhile_cons, notWS]
    have hdrop : (cs ++ t).dropWhile notWS = t := by
      rw [dropWhile_append_all hcs]
      rcases ht with rfl | ⟨r, rfl⟩
      · simp
      · simp [List.dropWhile_cons, notWS]
    rw [List.cons_append, tokenizeChars_cons, if_neg hc.1, if_neg hc.2, htake, hdrop]

theorem tok_quoted {u : List Char} (hu : u ≠ [])
    (hall : ∀ c ∈ u, c ≠ '"' ∧ c ≠ '\n') (t : List Char) :
    tokenizeChars ('"' :: u ++ ('"' :: t)) = ('"' :: u ++ ['"']) :: tokenizeChars t := by
  have hok : ∀ c ∈ u, (c ≠ '"' && c ≠ '\n') = true := by
    intro c hc
    have := hall c hc
    simp [this.1, this.2]
  have hqt : quotedTail (u ++ ('"' :: t)) = some (u, t) := by
    simp only [quotedTail]
    rw [takeWhile_append_all hok, dropWhile_append_all hok]
    have h1 : (('"' :: t).takeWhile fun c => c ≠ '"' && c ≠ '\n') = [] := by
      simp [List.takeWhile_cons]
    have h2 : (('"' :: t).dropWhile fun c => c ≠ '"' && c ≠ '\n') = '"' :: t := by
      simp [List.dropWhile_cons]
    rw [h1, h2]
    have h3 : (u ++ ([] : List Char)).isEmpty = false := by
      cases u with
      | nil => exact absurd rfl hu
      | cons x xs => simp [List.isEmpty]
    simp only [h3, Bool.false_eq_true, if_false]
    simp
  rw [List.cons_append, tokenizeChars_cons, if_neg (by decide : ¬('"' : Char).isWhitespace = true),
    if_pos rfl, hqt]

theorem tokenizeChars_renderLine : ∀ (us : List (Bool × List Char)),
    (∀ u ∈ us, unitWF u = true) →
    tokenizeChars (renderLine us) = us.map renderUnit := by
  intro us
  induction us with
  | nil => intro _; rfl
  | cons u us ih =>
    intro h
    have hu := h u (List.mem_cons_self u us)
    have hus : ∀ v ∈ us, unitWF v = true := fun v hv => h v (List.mem_cons_of_mem u hv)
    obtain ⟨b, w⟩ := u
    cases b
    · have hw : w ≠ [] ∧ ∀ c ∈ w, ¬c.isWhitespace = true ∧ c ≠ '"' := by
        simp only [unitWF, Bool.and_eq_true, List.all_eq_true] at hu
        refine ⟨?_, fun c hc => ?_⟩
        · intro hnil
          rw [hnil] at hu
          simp at hu
        · have := hu.2 c hc
          simp only [Bool.and_eq_true] at this
          exact ⟨by simpa using this.1, by simpa using this.2⟩
      cases us with
      | nil =>
        show tokenizeChars w = [renderUnit (false, w)]
        have := tok_plain hw.1 hw.2 (t := []) (Or.inl rfl)
        simpa [renderUnit] using this
      | cons v vs =>
        show tokenizeChars (w ++ ' ' :: renderLine (v :: vs)) = _
        rw [tok_plain hw.1 hw.2 (Or.inr ⟨renderLine (v :: vs), rfl⟩)]
        have hskip : tokenizeChars (' ' :: renderLine (v :: vs)) =
            tokenizeChars (renderLine (v :: vs)) := by
          rw [tokenizeChars_cons, if_pos (by decide)]
        rw [hskip, ih hus]
        rfl
    · have hw : w ≠ [] ∧ ∀ c ∈ w, c ≠ '"' ∧ c ≠ '\n' := by
        simp only [unitWF, Bool.and_eq_true, List.all_eq_true] at hu
        refine ⟨?_, fun c hc => ?_⟩
        · intro hnil
          rw [hnil] at hu
          simp at hu
        · have := hu.2 c hc
          simp only [Bool.and_eq_true] at this
          exact ⟨by simpa using this.1, by simpa using this.2⟩
      cases us with
      | nil =>
        show tokenizeChars ('"' :: w ++ ['"']) = [renderUnit (true, w)]
        have := tok_quoted hw.1 hw.2 []
        simpa [renderUnit] using this
      | cons v vs =>
        show tokenizeChars (('"' :: w ++ ['"']) ++ ' ' :: renderLine (v :: vs)) = _
        have hassoc : ('"' :: w ++ ['"']) ++ ' ' :: renderLine (v :: vs) =
            '"' :: w ++ ('"' :: (' ' :: renderLine (v :: vs))) := by
          simp
        rw [hassoc, tok_quoted hw.1 hw.2]
        have hskip : tokenizeChars (' ' :: renderLine (v :: vs)) =
            tokenizeChars (renderLine (v :: vs)) := by
          rw [tokenizeChars_cons, if_pos (by decide)]
        rw [hskip, ih hus]
        rfl

/-- C2: appending a required parameter to a command whose list already holds a
non-required parameter fails with `IllegalRequired` naming the appended
parameter and produces no modified command; appending a non-required
parameter, or a required one while all existing parameters are required,
succeeds and appends it at the end of the list. -/
theorem C2_with_parameter {Ctx E : Type} (cmd : Command Ctx E) (p : Parameter) :
    ((∃ q ∈ cmd.parameters, q.required = false) → p.required = true →
      cmd.with_parameter p = .error (.IllegalRequiredError p.name)) ∧
    (p.required = false →
      cmd.with_parameter p = .ok { cmd with parameters := cmd.parameters ++ [p] }) ∧
    ((∀ q ∈ cmd.parameters, q.required = true) →
      cmd.with_parameter p = .ok { cmd with parameters := cmd.parameters ++ [p] }) := by
  refine ⟨?_, ?_, ?_⟩
  · rintro ⟨q, hq, hreq⟩ hp
    have hany : cmd.parameters.any (fun param => !param.required) = true :=
      List.any_eq_true.mpr ⟨q, hq, by simp [hreq]⟩
    simp [Command.with_parameter, hp, hany]
  · intro hp
    simp [Command.with_parameter, hp]
  · intro hall
    have hany : cmd.parameters.any (fun param => !param.required) = false := by
      cases hcase : cmd.parameters.any (fun param => !param.required) with
      | false => rfl
      | true =>
        obtain ⟨q, hq, hbad⟩ := List.any_eq_true.mp hcase
        rw [hall q hq] at hbad
        simp at hbad
    simp [Command.with_parameter, hany]

theorem C2_witness :
    c2OptionalFirst.with_parameter { name := "bar", required := true, default := none } =
      .error (.IllegalRequiredError "bar") :=
  (C2_with_parameter c2OptionalFirst _).1
    ⟨{ name := "baz", required := false, default := some "20" }, by simp [c2OptionalFirst], rfl⟩
    rfl

/-- C3: no parameter reachable through the builder API has both
`required = true` and a default; `set_required true` on a defaulted parameter
fails with `IllegalRequired`, and `set_default` on a required parameter fails
with `IllegalDefault`, in both cases producing no modified parameter. -/
theorem C3_parameter_invariant :
    (∀ p : Parameter, ReachableParameter p →
      ¬(p.required = true ∧ p.default.isSome = true)) ∧
    (∀ (p : Parameter) (d : String), p.default = some d →
      p.set_required true = .error (.IllegalRequiredError p.name)) ∧
    (∀ (p : Parameter) (s : String), p.required = true →
      p.set_default s = .error (.IllegalDefaultError p.name)) := by
  refine ⟨?_, ?_, ?_⟩
  · intro p hp
    induction hp with
    | new name => simp [Parameter.new]
    | set_required p q b hp hok ih =>
      simp only [Parameter.set_required] at hok
      by_cases hd : p.default.isSome = true
      · rw [if_pos hd] at hok
        exact absurd hok (by simp)
      · rw [if_neg hd] at hok
        obtain rfl := Except.ok.inj hok
        rintro ⟨hreq, hsome⟩
        exact hd hsome
    | set_default p q d hp hok ih =>
      simp only [Parameter.set_default] at hok
      by_cases hr : p.required = true
      · rw [if_pos hr] at hok
        exact absurd hok (by simp)
      · rw [if_neg hr] at hok
        obtain rfl := Except.ok.inj hok
        rintro ⟨hreq, hsome⟩
        exact hr hreq
  · intro p d hd
    simp [Parameter.set_required, hd]
  · intro p s hr
    simp [Parameter.set_default, hr]

theorem C3_witness :
    (Parameter.mk "bar" false (some "20")).set_required true =
        .error (.IllegalRequiredError "bar") ∧
    (Parameter.mk "bar" true none).set_default "foo" =
        .error (.IllegalDefaultError "bar") ∧
    ¬((Parameter.new "x").required = true ∧ (Parameter.new "x").default.isSome = true) :=
  ⟨C3_parameter_invariant.2.1 _ "20" rfl,
   C3_parameter_invariant.2.2 _ "foo" rfl,
   C3_parameter_invariant.1 _ (ReachableParameter.new "x")⟩

/-- C4: the argument binder returns `TooManyArguments(command, len(parameters))`
exactly when `len(args) > len(parameters)`, any `TooManyArguments` error it
returns carries that command and that count, and in the error case no binding
map is produced (the result is the bare error). -/
theorem C4_too_many_arguments (command : String) (parameters : List Parameter)
    (args : List String) :
    (validate_arguments command parameters args =
        .error (.TooManyArguments command parameters.length) ↔
      parameters.length < args.length) ∧
    (∀ (c : String) (n : Nat),
      validate_arguments command parameters args = .error (.TooManyArguments c n) →
      c = command ∧ n = parameters.length) := by
  have hnotm : ∀ (c : String) (n : Nat) (acc : List (String × Value)),
      bindLoop command acc parameters args ≠ .error (.TooManyArguments c n) := by
    intro c n acc heq
    rw [bindLoop_spec] at heq
    cases hfm : firstMissing parameters args with
    | none => rw [hfm] at heq; exact absurd heq (by simp)
    | some nm => rw [hfm] at heq; exact absurd heq (by simp)
  constructor
  · constructor
    · intro heq
      by_contra hle
      have hle2 : ¬(args.length > parameters.length) := by omega
      rw [validate_arguments, if_neg hle2] at heq
      exact hnotm _ _ _ heq
    · intro hlt
      rw [validate_arguments, if_pos (by omega)]
  · intro c n heq
    by_cases hgt : args.length > parameters.length
    · rw [validate_arguments, if_pos hgt] at heq
      have hinj := Except.error.inj heq
      injection hinj with h1 h2
      exact ⟨h1.symm, h2.symm⟩
    · rw [validate_arguments, if_neg hgt] at heq
      exact absurd heq (hnotm _ _ _)

theorem C4_witness :
    validate_arguments "foo" [Parameter.new "bar"] ["1", "2"] =
      .error (.TooManyArguments "foo" 1) :=
  (C4_too_many_arguments "foo" [Parameter.new "bar"] ["1", "2"]).1.mpr (by decide)

/-- C5: with no arity overflow, the binder returns `MissingRequiredArgument`
exactly when some required parameter has no supplied token, and the parameter
it reports is the first (lowest-index) required parameter without a token,
i.e. the first required entry among the parameters past the supplied
arguments. -/
theorem C5_missing_required (command : String) (parameters : List Parameter)
    (args : List String) (h : args.length ≤ parameters.length) :
    ((∃ (c : String) (nm : String),
        validate_arguments command parameters args =
          .error (.MissingRequiredArgument c nm)) ↔
      ∃ p ∈ parameters.drop args.length, p.required = true) ∧
    (∀ (c : String) (nm : String),
      validate_arguments command parameters args =
        .error (.MissingRequiredArgument c nm) →
      c = command ∧
        ((parameters.drop args.length).find? (fun p => p.required)).map
          (fun p => p.name) = some nm) := by
  have hval : validate_arguments command parameters args =
      bindLoop command [] parameters args := by
    rw [validate_arguments, if_neg (by omega)]
  rw [hval, bindLoop_spec, firstMissing_eq_find]
  cases hfind : (parameters.drop args.length).find? (fun p => p.required) with
  | some p =>
    simp only [hfind, Option.map_some']
    constructor
    · constructor
      · intro _
        exact ⟨p, List.mem_of_find?_eq_some hfind, List.find?_some hfind⟩
      · intro _
        exact ⟨command, p.name, rfl⟩
    · intro c nm heq
      have hinj := Except.error.inj heq
      injection hinj with h1 h2
      exact ⟨h1.symm, by rw [h2]⟩
  | none =>
    simp only [hfind, Option.map_none']
    constructor
    · constructor
      · rintro ⟨c, nm, heq⟩
        exact absurd heq (by simp)
      · rintro ⟨p, hp, hreq⟩
        have := List.find?_eq_none.mp hfind p hp
        rw [hreq] at this
        simp at this
    · intro c nm heq
      exact absurd heq (by simp)

theorem C5_witness :
    validate_arguments "foo"
        [{ name := "bar", required := true, default := none },
         { name := "baz", required := true, default := none }]
        ["onlyone"] =
      .error (.MissingRequiredArgument "foo" "baz") ∧
    ((List.drop 1
        [{ name := "bar", required := true, default := none },
         ({ name := "baz", required := true, default := none } : Parameter)]).find?
      (fun p => p.required)).map (fun p => p.name) = some "baz" :=
  ⟨rfl,
   ((C5_missing_required "foo"
      [{ name := "bar", required := true, default := none },
       { name := "baz", required := true, default := none }]
      ["onlyone"] (by decide)).2 "foo" "baz" rfl).2⟩

/-- C6: on successful binding with pairwise-distinct parameter names, each
parameter with a supplied token is bound to that token's `Value`, each
remaining parameter is bound to its default when one exists, and is otherwise
absent from the map (its lookup is `none`). -/
theorem C6_binding_map (command : String) (parameters : List Parameter)
    (args : List String) (m : List (String × Value))
    (hnd : (parameters.map (fun p => p.name)).Nodup)
    (hm : validate_arguments command parameters args = .ok m)
    (i : Nat) (hi : i < parameters.length) :
    (∀ ha : i < args.length,
      List.lookup (parameters.get ⟨i, hi⟩).name m =
        some (Value.new (args.get ⟨i, ha⟩))) ∧
    (args.length ≤ i →
      List.lookup (parameters.get ⟨i, hi⟩).name m =
        (parameters.get ⟨i, hi⟩).default.map Value.new) := by
  have hble : ¬(args.length > parameters.length) := by
    by_contra hgt
    rw [validate_arguments, if_pos (by omega)] at hm
    exact absurd hm (by simp)
  rw [validate_arguments, if_neg hble, bindLoop_spec] at hm
  cases hfm : firstMissing parameters args with
  | some nm =>
    rw [hfm] at hm
    exact absurd hm (by simp)
  | none =>
    rw [hfm] at hm
    simp only [List.append_nil] at hm
    obtain rfl := (Except.ok.inj hm).symm
    have hndc : ((collected parameters args).map Prod.fst).Nodup :=
      List.Nodup.sublist (by simpa using collected_keys_sublist parameters args) hnd
    have hcl := collected_lookup parameters args hnd i hi
    constructor
    · intro ha
      rw [lookup_reverse_of_nodup hndc, hcl, dif_pos ha]
    · intro ha
      rw [lookup_reverse_of_nodup hndc, hcl, dif_neg (by omega)]

theorem C6_witness :
    validate_arguments "mycmd" [{ name := "baz", required := false, default := some "20" }]
        [] = .ok [("baz", Value.new "20")] ∧
    List.lookup "baz" [("baz", Value.new "20")] = some (Value.new "20") := by
  refine ⟨rfl, ?_⟩
  have h := (C6_binding_map "mycmd"
    [{ name := "baz", required := false, default := some "20" }] []
    [("baz", Value.new "20")] (by decide) rfl 0 (by decide)).2 (by decide)
  exact h

/-- C1 counterexample: with a user command registered under the name `"help"`,
dispatching the input `help` runs the user callback (the context is mutated and
the callback's output is printed) and does not invoke help rendering (the
viewer, which would fail, is never called), so the reserved literal `"help"`
is shadowed by the user-registered command, contrary to the claim. -/
theorem C1_counterexample :
    handle_command (fun e => e) c1FailViewer ⟨[]⟩ (add_command [] c1UserHelp) 0
      "help" [] = (.ok (), 1, [.out "USER CALLBACK"]) := rfl

/-- C1 (amended): dispatching `help` is handled by help rendering only when no
user command named `"help"` is registered; when one is registered, it is its
callback that runs (the lookup in the command table precedes the reserved
literal check), independently of the help viewer and help index. -/
theorem C1_amended {Ctx E : Type} (fe : Error → E) (hv : HelpViewerM)
    (hc : HelpContext) (commands : CmdTable Ctx E) (ctx : Ctx)
    (args : List String) :
    (∀ d, List.lookup "help" commands = some d →
      handle_command fe hv hc commands ctx "help" args =
        exec_command fe d ctx "help" args) ∧
    (List.lookup "help" commands = none →
      handle_command fe hv hc commands ctx "help" args =
        exec_help fe hv hc ctx args) := by
  constructor
  · intro d hd
    rw [handle_command, hd]
  · intro hd
    rw [handle_command, hd, if_pos rfl]

theorem C1_witness :
    handle_command (fun e => e) c1FailViewer ⟨[]⟩ (add_command [] c1UserHelp) 0
        "help" [] =
      exec_command (fun e => e) c1UserHelp 0 "help" [] :=
  (C1_amended (fun e => e) c1FailViewer ⟨[]⟩ (add_command [] c1UserHelp) 0 []).1
    c1UserHelp rfl

/-- C7: on a line of whitespace-separated units in which each double quote
encloses a whole unit, the tokenizer yields exactly one token per unit, in
order, equal to the unit's content with the enclosing quotes stripped; in
particular `foo "hello world" bar` tokenizes to `["foo", "hello world", "bar"]`
with the quoted token unsplit. -/
theorem C7_tokenizer :
    (∀ us : List (Bool × List Char), (∀ u ∈ us, unitWF u = true) →
      tokenize (renderLine us) = us.map (fun u => String.mk u.2)) ∧
    tokenize ("foo \"hello world\" bar").data = ["foo", "hello world", "bar"] := by
  constructor
  · intro us h
    rw [tokenize, tokenizeChars_renderLine us h, List.map_map]
    apply List.map_congr_left
    intro u hu
    have hwf := h u hu
    obtain ⟨b, w⟩ := u
    cases b
    · simp only [unitWF, Bool.and_eq_true, List.all_eq_true] at hwf
      simp only [Function.comp, renderUnit]
      congr 1
      apply List.filter_eq_self.mpr
      intro c hc
      have := hwf.2 c hc
      simp only [Bool.and_eq_true] at this
      simpa using this.2
    · simp only [unitWF, Bool.and_eq_true, List.all_eq_true] at hwf
      simp only [Function.comp, renderUnit]
      congr 1
      have hq : (fun c => decide (c ≠ '"')) '"' = false := by decide
      rw [List.filter_append, List.filter_cons]
      simp only [hq, Bool.false_eq_true, if_false]
      have h1 : List.filter (fun c => decide (c ≠ '"')) w = w := by
        apply List.filter_eq_self.mpr
        intro c hc
        have := hwf.2 c hc
        simp only [Bool.and_eq_true] at this
        simpa using this.1
      have h2 : List.filter (fun c => decide (c ≠ '"')) ['"'] = [] := by decide
      rw [h1, h2, List.append_nil]
  · rfl

theorem C7_witness :
    tokenize (renderLine
        [(false, "foo".data), (true, ("hello world").data), (false, "bar".data)]) =
      ["foo", "hello world", "bar"] :=
  C7_tokenizer.1
    [(false, "foo".data), (true, ("hello world").data), (false, "bar".data)]
    (by decide)

/-- C8: a line that is empty or consists only of whitespace dispatches no
command, produces no output, leaves the context unchanged and returns
success. -/
theorem C8_blank_line {Ctx E : Type} (fe : Error → E) (hv : HelpViewerM)
    (hc : HelpContext) (commands : CmdTable Ctx E) (ctx : Ctx) (line : String)
    (h : ∀ c ∈ line.data, c.isWhitespace = true) :
    process_line fe hv hc commands ctx line = (.ok (), ctx, []) := by
  have htrim : trimChars line.data = [] := by
    unfold trimChars
    rw [List.dropWhile_eq_nil_iff.mpr h]
    simp
  simp only [process_line, htrim]
  rfl

theorem C8_witness :
    process_line (fun (e : Error) => e) ⟨fun _ => .ok (), fun _ => .ok ()⟩ ⟨[]⟩
        ([] : CmdTable Nat Error) 0 "  \t " = (.ok (), 0, []) :=
  C8_blank_line _ _ _ _ _ _ (by decide)

/-- C9: for input `help X` where no command named `X` is in the help index and
no user command named `"help"` is registered, a "no help found" notice goes to
the error sink and the dispatch returns success (so the error handler, which
only runs on an error result, is not invoked), for every viewer. -/
theorem C9_help_miss {Ctx E : Type} (fe : Error → E) (hv : HelpViewerM)
    (hc : HelpContext) (commands : CmdTable Ctx E) (ctx : Ctx) (x : String)
    (hcmd : List.lookup "help" commands = none)
    (hentry : hc.help_entries.find? (fun entry => entry.command == x) = none) :
    handle_command fe hv hc commands ctx "help" [x] =
      (.ok (), ctx, [.errOut ("Help not found for command '" ++ x ++ "'")]) := by
  rw [handle_command, hcmd, if_pos rfl, exec_help, show_help, hentry]

theorem C9_witness :
    handle_command (fun (e : Error) => e)
        ⟨fun _ => .error (.CommandError "viewer invoked"),
         fun _ => .error (.CommandError "viewer invoked")⟩
        ⟨[]⟩ ([] : CmdTable Nat Error) 0 "help" ["frobnicate"] =
      (.ok (), 0, [.errOut "Help not found for command 'frobnicate'"]) :=
  C9_help_miss _ _ _ _ _ _ rfl rfl

/-- C10: the tokenizer removes every double-quote character of a matched
token, not only an enclosing pair: no produced token contains a double quote,
the token written `ab"cd` tokenizes to `abcd`, and the quoted command name
`"foo"` resolves to (and runs) the command `foo`. -/
theorem C10_quote_removal :
    (∀ (cs : List Char) (t : String), t ∈ tokenize cs → ∀ c ∈ t.data, c ≠ '"') ∧
    tokenize ("ab\"cd").data = ["abcd"] ∧
    process_line (fun (e : Error) => e) ⟨fun _ => .ok (), fun _ => .ok ()⟩ ⟨[]⟩
        (add_command [] c10FooCmd) 0 "\"foo\"" = (.ok (), 1, [.out "FOO RAN"]) := by
  refine ⟨?_, rfl, rfl⟩
  intro cs t ht c hc
  simp only [tokenize, List.mem_map] at ht
  obtain ⟨raw, _, rfl⟩ := ht
  have : c ∈ raw.filter (fun c => c ≠ '"') := hc
  have hmem := List.of_mem_filter this
  simpa using hmem

theorem C10_witness :
    "abcd" ∈ tokenize ("ab\"cd").data ∧ ('a' : Char) ≠ '"' :=
  ⟨by decide,
   C10_quote_removal.1 ("ab\"cd").data "abcd" (by decide) 'a' (by decide)⟩

end ReplRs
